import Mathlib

/-!
Verification development for the `gen-closure-declarations` generator
(`src/gen-closure.ts`). The source file contains two variants of the same
generator: a later variant that returns the generated externs text as a
string (modelled here at top level and in namespace `V1` where the two
variants differ), and an earlier variant that writes the text to standard
output (namespace `V2`, the "stdout variant"). Strings are modelled as
Lean `String` (a wrapper around `List Char`); JavaScript `undefined` for
optional fields is modelled with `Option`.
-/

/-- The `sourceRange` of an analyzer feature; only its `file` path is used. -/
structure SourceRange where
  file : String
deriving Repr, DecidableEq

/-- One JSDoc tag; only its `title` is inspected (`t.title === 'override'`). -/
structure JsdocTag where
  title : String
deriving Repr, DecidableEq

/-- Field `method.jsdoc`: the code guards `method.jsdoc && method.jsdoc.tags`,
so `tags` is modelled as optional. -/
structure Jsdoc where
  tags : Option (List JsdocTag)
deriving Repr, DecidableEq

/-- A method parameter `{ name: string; type?: string; }`. -/
structure Param where
  name : String
  type : Option String
deriving Repr, DecidableEq

/-- Field `method.return`: an optional record holding an optional `type`. -/
structure MethodReturn where
  type : Option String
deriving Repr, DecidableEq

/-- A `Method` feature member, with the fields the generator reads.
`ret` models the source field `return` (a Lean keyword). -/
structure Method where
  name : String
  params : Option (List Param)
  ret : Option MethodReturn
  privacy : String
  inheritedFrom : Option String
  jsdoc : Option Jsdoc
deriving Repr, DecidableEq

/-- A `Property` feature member, with the fields the generator reads. -/
structure Property where
  name : String
  type : Option String
  privacy : String
  inheritedFrom : Option String
deriving Repr, DecidableEq

/-- A reference to a parent mixin (`m.identifier`). -/
structure MixinRef where
  identifier : String
deriving Repr, DecidableEq

/-- A `PolymerElementMixin` feature, with the fields the generator reads.
`mixins` is optional because the code guards `mixin.mixins && ...`. -/
structure PolymerElementMixin where
  name : String
  mixins : Option (List MixinRef)
  properties : List Property
  methods : List Method
deriving Repr, DecidableEq

/-- An analyzer feature: the generator reads `sourceRange`, `kinds`, and
(after the `element-mixin` kind test) the mixin payload. -/
structure Feature where
  sourceRange : Option SourceRange
  kinds : List String
  mixin : PolymerElementMixin
deriving Repr, DecidableEq

/-- Result record of `getNamespaceAndName`: `{ name?, namespace? }`.
The field `namespaceName` models `namespace` (a Lean keyword), matching the
destructuring `{ name, namespace: namespaceName }` used in the stdout variant. -/
structure NsName where
  name : Option String
  namespaceName : Option String
deriving Repr, DecidableEq

/-- JS template interpolation of a possibly-`undefined` string:
`${x}` prints `undefined` when `x` is `undefined`. -/
def tmpl : Option String → String
  | some s => s
  | none => "undefined"

/-- JS `x || '*'` on an optional string: `undefined` and the empty string
are falsy, so both fall back to `'*'`. -/
def typeOrStar : Option String → String
  | some s => if s = "" then "*" else s
  | none => "*"

/-- JS `method.return && method.return.type`. -/
def returnTypeOf (m : Method) : Option String :=
  match m.ret with
  | some r => r.type
  | none => none

/-- The truthiness filter applied when pushing generated member text:
`if (propertyText) { mixinDesc.push(propertyText); }` keeps only
defined, non-empty strings. -/
def truthyList (l : List (Option String)) : List String :=
  l.filterMap fun o =>
    match o with
    | some s => if s = "" then none else some s
    | none => none

/-- JS `\w` character class: `[A-Za-z0-9_]`. -/
def isWordChar (c : Char) : Bool :=
  c.isAlpha || c.isDigit || c = '_'

/-- A path separator as used by the test regex: `/` or `\`. -/
def isSep (c : Char) : Bool :=
  c = '/' || c = '\\'

/-- Does the list start with a match of `(test[s]?)(\/|\\)`, i.e. with
`test` or `tests` immediately followed by a path separator? -/
def startsTestSeg (l : List Char) : Bool :=
  match l with
  | a :: b :: c :: d :: rest =>
    a = 't' && b = 'e' && c = 's' && d = 't' &&
      (match rest with
       | e :: f :: _ => (e = 's' && isSep f) || isSep e
       | [e] => isSep e
       | [] => false)
  | _ => false

/-- The JS word-boundary assertion `\b` between the previous character
(`none` at the start of the string) and the head of the remaining input. -/
def bAt (prev : Option Char) (l : List Char) : Bool :=
  (match prev with | some p => isWordChar p | none => false)
    != (match l with | c :: _ => isWordChar c | [] => false)

/-- Scan for a match of `(\b|\/|\\)(test[s]?)(\/|\\)` anywhere in the
input: at each position, either the zero-width `\b` alternative holds and
`test[s]?` plus a separator follows, or a separator character is consumed
and `test[s]?` plus a separator follows it. -/
def scanRegex : Option Char → List Char → Bool
  | _, [] => false
  | prev, c :: rest =>
    (bAt prev (c :: rest) && startsTestSeg (c :: rest))
      || (isSep c && startsTestSeg rest)
      || scanRegex (some c) rest

/-- The test `isInTestsRegex.test(path)` for `/(\b|\/|\\)(test[s]?)(\/|\\)/`. -/
def isInTestsRegexTest (s : String) : Bool :=
  scanRegex none s.data

/-- Source: `const isTest = (f) => f.sourceRange && isInTestsRegex.test(f.sourceRange.file)`,
read as a truthiness test: `undefined` source range counts as not-a-test. -/
def isTest (f : Feature) : Bool :=
  match f.sourceRange with
  | some sr => isInTestsRegexTest sr.file
  | none => false

/-- Returns `true` on `none` (start of input), else `true` iff the character is a
non-word character; used to characterise where the regex's left context
`(\b|\/|\\)` can match ahead of the literal `t` of `test`. -/
def prevOk : Option Char → Bool
  | none => true
  | some p => !isWordChar p

/-- The character immediately preceding the match position: the last
character of the consumed prefix `pre`, or the ambient previous character
when `pre` is empty. -/
def prevCharOf (prev : Option Char) (pre : List Char) : Option Char :=
  match pre.getLast? with
  | some p => some p
  | none => prev

/-- Spec-side comparator (follows the claim's words, not the source): does the input start with a path segment
exactly `test` or `tests`, bounded on the right by a path separator or the
end of the string? (Claim-side comparator for the test-path filter.) -/
def boundedSegHere (l : List Char) : Bool :=
  match l with
  | 't' :: 'e' :: 's' :: 't' :: 's' :: rest => rest.isEmpty || isSep (rest.headD ' ')
  | 't' :: 'e' :: 's' :: 't' :: rest => rest.isEmpty || isSep (rest.headD ' ')
  | _ => false

/-- Spec-side comparator: scan of the claim's predicate — a position is
a candidate iff it is the start of the string or preceded by a path
separator. -/
def specScan : Bool → List Char → Bool
  | _, [] => false
  | atB, c :: rest => (atB && boundedSegHere (c :: rest)) || specScan (isSep c) rest

/-- Spec-side comparator: the path contains a segment exactly `test` or
`tests`, bounded on both sides by path separators or string boundaries. -/
def specIsTestSegPath (s : String) : Bool :=
  specScan true s.data

/-- JS `String.prototype.lastIndexOf` for a single character, returning
`none` in place of `-1`. -/
def lastIndexOf (c : Char) : List Char → Option Nat
  | [] => none
  | x :: xs =>
    match lastIndexOf c xs with
    | some i => some (i + 1)
    | none => if x = c then some 0 else none

/-- Variant-1 `getNamespaceAndName`: split a dotted identifier at the last
`.` via `substring(lastDotIndex + 1, name.length)` / `substring(0, lastDotIndex)`;
with no dot, `namespace` is absent and `name` is the whole string. -/
def getNamespaceAndName (s : String) : NsName :=
  match lastIndexOf '.' s.data with
  | some i =>
    { name := some (String.mk (s.data.drop (i + 1)))
      namespaceName := some (String.mk (s.data.take i)) }
  | none => { name := some s, namespaceName := none }

/-- Function `cleanVarArgs`: strip a leading `...` (JS `name.startsWith('...')`
then `name.slice(3)`). -/
def cleanVarArgs (name : String) : String :=
  match name.data with
  | '.' :: '.' :: '.' :: rest => String.mk rest
  | _ => name

/-- Variant-1 `genParameter`: `* @param {type || '*'} cleanVarArgs(name)`. -/
def genParameter (p : Param) : String :=
  "* @param " ++ "\x7b" ++ typeOrStar p.type ++ "\x7d " ++ cleanVarArgs p.name

/-- Function `genProperty` (textually identical in both variants): skip private and
inherited properties, else emit `/** @type {type} */` plus the prototype
stub. An absent type interpolates as the literal `undefined`. -/
def genProperty (mixinName : String) (p : Property) : Option String :=
  if p.privacy = "private" ∨ p.inheritedFrom.isSome then none
  else some ("/** @type " ++ "\x7b" ++ tmpl p.type ++ "\x7d */\n"
    ++ mixinName ++ ".prototype." ++ p.name ++ ";\n")

/-- Does the method's JSDoc carry an `@override` tag
(`method.jsdoc && method.jsdoc.tags && method.jsdoc.tags.some(t => t.title === 'override')`)? -/
def hasOverrideTag (m : Method) : Bool :=
  match m.jsdoc with
  | some j =>
    match j.tags with
    | some tags => tags.any fun t => t.title = "override"
    | none => false
  | none => false

/-- The `out` line array built by variant-1 `genMethod`, or `none` for a
private method. -/
def genMethodOut (mixinName : String) (m : Method) : Option (List String) :=
  if m.privacy = "private" then none
  else
    let overrideLines := if hasOverrideTag m then ["* @override"] else []
    let paramLines :=
      match m.params with
      | some ps => ps.map genParameter
      | none => []
    let retLines :=
      match returnTypeOf m with
      | some rt => if rt = "" then [] else ["* @return " ++ "\x7b" ++ rt ++ "\x7d"]
      | none => []
    let paramText :=
      match m.params with
      | some ps => String.intercalate ", " (ps.map fun p => cleanVarArgs p.name)
      | none => ""
    some (["/**"] ++ overrideLines ++ paramLines ++ retLines
      ++ ["*/", mixinName ++ ".prototype." ++ m.name ++ " = function(" ++ paramText ++ "){};"])

/-- Variant-1 `genMethod`: the `out` array joined with newlines. -/
def genMethod (mixinName : String) (m : Method) : Option String :=
  (genMethodOut mixinName m).map (String.intercalate "\n")

/-- The combined type name `` `${namespace}_${name}` `` computed by
variant-1 `genMixinDeclaration` (an absent namespace interpolates as the
literal `undefined`). -/
def mixinNameOf (s : String) : String :=
  tmpl (getNamespaceAndName s).namespaceName ++ "_" ++ tmpl (getNamespaceAndName s).name

/-- The `mixinDesc` line array built by variant-1 `genMixinDeclaration`:
record header, `@extends` lines for parent mixins, the constructor stub,
then the truthy property and method texts. -/
def genMixinDesc (mixin : PolymerElementMixin) : List String :=
  let mixinName := mixinNameOf mixin.name
  let extendLines :=
    match mixin.mixins with
    | some ms =>
      if 0 < ms.length then
        ms.map fun m => "* @extends " ++ "\x7b" ++ mixinNameOf m.identifier ++ "\x7d"
      else []
    | none => []
  ["/**", "* @record"] ++ extendLines
    ++ ["*/", "function " ++ mixinName ++ "(){}"]
    ++ truthyList (mixin.properties.map (genProperty mixinName))
    ++ truthyList (mixin.methods.map (genMethod mixinName))

/-- Variant-1 `genMixinDeclaration`: the block pushed onto `declarations`
(`mixinDesc.join('\n')`). -/
def genMixinDeclaration (mixin : PolymerElementMixin) : String :=
  String.intercalate "\n" (genMixinDesc mixin)

/-- The fixed hand-written file header of variant 1. -/
def header : String :=
  "\n/**\n * @fileoverview Closure types for Polymer mixins\n * @externs\n *\n * This file is generated, do not edit manually\n */\n/* eslint-disable no-unused-vars, strict */\n"

/-- Variant-1 `generatePackage`: seed `declarations` with the header, skip
test features, push one block per `element-mixin` feature, and return
`declarations.join('\n')`. -/
def generatePackage (features : List Feature) : String :=
  String.intercalate "\n"
    (header :: features.filterMap fun f =>
      if isTest f then none
      else if f.kinds.contains "element-mixin" then some (genMixinDeclaration f.mixin)
      else none)

namespace V2

/-- Stdout-variant `getNamespaceAndName`: like variant 1 but the returned
`name` for a dotted identifier is `'Polymer_' + ` the part after the last
dot, unconditionally. -/
def getNamespaceAndName (s : String) : NsName :=
  match lastIndexOf '.' s.data with
  | some i =>
    { name := some ("Polymer_" ++ String.mk (s.data.drop (i + 1)))
      namespaceName := some (String.mk (s.data.take i)) }
  | none => { name := some s, namespaceName := none }

/-- Stdout-variant `genParameter`: no `...`-stripping on the name. -/
def genParameter (p : Param) : String :=
  "* @param " ++ "\x7b" ++ typeOrStar p.type ++ "\x7d " ++ p.name

/-- The `out` line array built by stdout-variant `genMethod`: private and
inherited methods are both skipped; there is no override handling and no
`...`-stripping. -/
def genMethodOut (mixinName : String) (m : Method) : Option (List String) :=
  if m.privacy = "private" ∨ m.inheritedFrom.isSome then none
  else
    let paramLines :=
      match m.params with
      | some ps => ps.map genParameter
      | none => []
    let retLines :=
      match returnTypeOf m with
      | some rt => if rt = "" then [] else ["* @return " ++ "\x7b" ++ rt ++ "\x7d"]
      | none => []
    let paramText :=
      match m.params with
      | some ps => String.intercalate ", " (ps.map fun p => p.name)
      | none => ""
    some (["/**"] ++ paramLines ++ retLines
      ++ ["*/", mixinName ++ ".prototype." ++ m.name ++ " = function(" ++ paramText ++ "){};"])

/-- Stdout-variant `genMethod`: the `out` array joined with newlines. -/
def genMethod (mixinName : String) (m : Method) : Option String :=
  (genMethodOut mixinName m).map (String.intercalate "\n")

/-- The `mixinDesc` line array built by stdout-variant
`genMixinDeclaration`, or `none` when the mixin's namespace is not exactly
`Polymer` (the variant's "TODO: handle non-Polymer namespaces" early
return). Parent mixins are cited with `@implements` using the splitter's
`name` (which carries the unconditional `Polymer_` prefix). -/
def genMixinDesc (mixin : PolymerElementMixin) : Option (List String) :=
  let nn := getNamespaceAndName mixin.name
  if nn.namespaceName ≠ some "Polymer" then none
  else
    let name := tmpl nn.name
    let implLines :=
      match mixin.mixins with
      | some ms =>
        if 0 < ms.length then
          ms.map fun m =>
            "* @implements " ++ "\x7b" ++ tmpl (getNamespaceAndName m.identifier).name ++ "\x7d"
        else []
      | none => []
    some (["/**", "* @record"] ++ implLines
      ++ ["*/", "function " ++ name ++ "(){}"]
      ++ truthyList (mixin.properties.map (genProperty name))
      ++ truthyList (mixin.methods.map (genMethod name)))

/-- Stdout-variant `genMixinDeclaration`: the block pushed onto
`declarations`, if any. -/
def genMixinDeclaration (mixin : PolymerElementMixin) : Option String :=
  (genMixinDesc mixin).map (String.intercalate "\n")

/-- The fixed hand-written file header of the stdout variant (its eslint
line lacks `, strict`). -/
def header : String :=
  "\n/**\n * @fileoverview Closure types for Polymer mixins\n * @externs\n *\n * This file is generated, do not edit manually\n */\n/* eslint-disable no-unused-vars */\n"

/-- Stdout-variant `generatePackage`: same pipeline as variant 1; the
joined string is written to `process.stdout`, modelled here as the
function's value. -/
def generatePackage (features : List Feature) : String :=
  String.intercalate "\n"
    (header :: features.filterMap fun f =>
      if isTest f then none
      else if f.kinds.contains "element-mixin" then genMixinDeclaration f.mixin
      else none)

end V2

/-! ## Helper lemmas -/

theorem lastIndexOf_of_not_mem {c : Char} : ∀ {l : List Char}, c ∉ l → lastIndexOf c l = none := by
  intro l h
  induction l with
  | nil => rfl
  | cons x xs ih =>
    have hx : ¬ x = c := fun e => h (e ▸ List.mem_cons_self x xs)
    have hxs : c ∉ xs := fun m => h (List.mem_cons_of_mem _ m)
    simp [lastIndexOf, ih hxs, hx]

theorem lastIndexOf_append_self {c : Char} {b : List Char} (hb : c ∉ b) :
    ∀ a : List Char, lastIndexOf c (a ++ c :: b) = some a.length := by
  intro a
  induction a with
  | nil => simp [lastIndexOf, lastIndexOf_of_not_mem hb]
  | cons x xs ih => simp [lastIndexOf, ih]

theorem getNamespaceAndName_dotted {a b : List Char} (hb : '.' ∉ b) :
    getNamespaceAndName (String.mk (a ++ '.' :: b)) =
      ⟨some (String.mk b), some (String.mk a)⟩ := by
  have hdrop : (a ++ '.' :: b).drop (a.length + 1) = b := by
    have h1 : a ++ '.' :: b = (a ++ ['.']) ++ b := by simp
    have h2 : (a ++ ['.']).length = a.length + 1 := by simp
    rw [h1, ← h2, List.drop_left]
  have htake : (a ++ '.' :: b).take a.length = a := List.take_left _ _
  unfold getNamespaceAndName
  rw [show (String.mk (a ++ '.' :: b)).data = a ++ '.' :: b from rfl,
    lastIndexOf_append_self hb]
  simp only [hdrop, htake]

theorem getNamespaceAndName_nodot {s : String} (h : '.' ∉ s.data) :
    getNamespaceAndName s = ⟨some s, none⟩ := by
  unfold getNamespaceAndName
  rw [lastIndexOf_of_not_mem h]

theorem v2_getNamespaceAndName_dotted {a b : List Char} (hb : '.' ∉ b) :
    V2.getNamespaceAndName (String.mk (a ++ '.' :: b)) =
      ⟨some ("Polymer_" ++ String.mk b), some (String.mk a)⟩ := by
  have hdrop : (a ++ '.' :: b).drop (a.length + 1) = b := by
    have h1 : a ++ '.' :: b = (a ++ ['.']) ++ b := by simp
    have h2 : (a ++ ['.']).length = a.length + 1 := by simp
    rw [h1, ← h2, List.drop_left]
  have htake : (a ++ '.' :: b).take a.length = a := List.take_left _ _
  unfold V2.getNamespaceAndName
  rw [show (String.mk (a ++ '.' :: b)).data = a ++ '.' :: b from rfl,
    lastIndexOf_append_self hb]
  simp only [hdrop, htake]

theorem v2_getNamespaceAndName_nodot {s : String} (h : '.' ∉ s.data) :
    V2.getNamespaceAndName s = ⟨some s, none⟩ := by
  unfold V2.getNamespaceAndName
  rw [lastIndexOf_of_not_mem h]

theorem prevCharOf_cons (prev : Option Char) (c : Char) (pre : List Char) :
    prevCharOf prev (c :: pre) = prevCharOf (some c) pre := by
  unfold prevCharOf
  rw [List.getLast?_cons]
  cases h : pre.getLast? with
  | none => simp [h]
  | some p => simp [h]

theorem prevCharOf_none (pre : List Char) : prevCharOf none pre = pre.getLast? := by
  unfold prevCharOf
  cases h : pre.getLast? with
  | none => simp
  | some p => simp

theorem startsTestSeg_iff {l : List Char} :
    startsTestSeg l = true ↔
      ∃ t sep post, l = t ++ sep :: post ∧
        (t = ['t', 'e', 's', 't'] ∨ t = ['t', 'e', 's', 't', 's']) ∧
        (sep = '/' ∨ sep = '\\') := by
  constructor
  · intro h
    rcases l with _ | ⟨a, _ | ⟨b, _ | ⟨c, _ | ⟨d, rest⟩⟩⟩⟩ <;>
      simp only [startsTestSeg] at h <;>
      try exact absurd h Bool.false_ne_true
    rw [Bool.and_eq_true, Bool.and_eq_true, Bool.and_eq_true, Bool.and_eq_true] at h
    obtain ⟨⟨⟨⟨ha, hb⟩, hc⟩, hd⟩, hrest⟩ := h
    rw [decide_eq_true_eq] at ha hb hc hd
    subst ha; subst hb; subst hc; subst hd
    rcases rest with _ | ⟨e, _ | ⟨f, rest2⟩⟩
    · exact absurd hrest (by simp)
    · refine ⟨['t', 'e', 's', 't'], e, [], rfl, Or.inl rfl, ?_⟩
      simpa [isSep] using hrest
    · rw [Bool.or_eq_true, Bool.and_eq_true] at hrest
      rcases hrest with ⟨he, hf⟩ | he
      · rw [decide_eq_true_eq] at he
        subst he
        exact ⟨['t', 'e', 's', 't', 's'], f, rest2, rfl, Or.inr rfl, by simpa [isSep] using hf⟩
      · exact ⟨['t', 'e', 's', 't'], e, f :: rest2, rfl, Or.inl rfl, by simpa [isSep] using he⟩
  · rintro ⟨t, sep, post, rfl, ht, hsep⟩
    rcases ht with rfl | rfl <;> rcases hsep with rfl | rfl <;>
      rcases post with _ | ⟨q, post'⟩ <;> rfl

theorem scanRegex_iff : ∀ (l : List Char) (prev : Option Char),
    scanRegex prev l = true ↔
      ∃ pre t sep post, l = pre ++ t ++ sep :: post ∧
        (t = ['t', 'e', 's', 't'] ∨ t = ['t', 'e', 's', 't', 's']) ∧
        (sep = '/' ∨ sep = '\\') ∧
        prevOk (prevCharOf prev pre) = true := by
  intro l
  induction l with
  | nil =>
    intro prev
    constructor
    · intro h
      exact absurd h Bool.false_ne_true
    · rintro ⟨pre, t, sep, post, heq, _, _, _⟩
      simp at heq
  | cons c rest ih =>
    intro prev
    constructor
    · intro h
      rw [scanRegex, Bool.or_eq_true, Bool.or_eq_true] at h
      rcases h with (hA | hB) | hR
      · rw [Bool.and_eq_true] at hA
        obtain ⟨hb, hs⟩ := hA
        obtain ⟨t, sep, post, heq, ht, hsep⟩ := startsTestSeg_iff.mp hs
        refine ⟨[], t, sep, post, by simpa using heq, ht, hsep, ?_⟩
        have hc : c = 't' := by
          rcases ht with rfl | rfl <;> simpa using congrArg List.head? heq
        subst hc
        unfold bAt at hb
        cases prev with
        | none => rfl
        | some p =>
          have hb2 : (isWordChar p != isWordChar 't') = true := hb
          have h't : isWordChar 't' = true := by decide
          rw [h't] at hb2
          have hw : isWordChar p = false := by simpa using hb2
          simp [prevOk, prevCharOf, hw]
      · rw [Bool.and_eq_true] at hB
        obtain ⟨hc, hs⟩ := hB
        obtain ⟨t, sep, post, rfl, ht, hsep⟩ := startsTestSeg_iff.mp hs
        refine ⟨[c], t, sep, post, by simp, ht, hsep, ?_⟩
        have : c = '/' ∨ c = '\\' := by simpa [isSep] using hc
        rcases this with rfl | rfl <;> rfl
      · obtain ⟨pre, t, sep, post, rfl, ht, hsep, hbnd⟩ := (ih (some c)).mp hR
        exact ⟨c :: pre, t, sep, post, by simp, ht, hsep, by rwa [prevCharOf_cons]⟩
    · rintro ⟨pre, t, sep, post, heq, ht, hsep, hbnd⟩
      rw [scanRegex, Bool.or_eq_true, Bool.or_eq_true]
      rcases pre with _ | ⟨c', pre'⟩
      · rw [List.nil_append] at heq
        have hs : startsTestSeg (c :: rest) = true :=
          startsTestSeg_iff.mpr ⟨t, sep, post, heq, ht, hsep⟩
        have hc : c = 't' := by
          rcases ht with rfl | rfl <;> simpa using congrArg List.head? heq
        subst hc
        have hb : bAt prev ('t' :: rest) = true := by
          unfold bAt
          cases prev with
          | none => rfl
          | some p =>
            have hw : isWordChar p = false := by
              simpa [prevOk, prevCharOf] using hbnd
            have h't : isWordChar 't' = true := by decide
            show (isWordChar p != isWordChar 't') = true
            rw [hw, h't]
            rfl
        refine Or.inl (Or.inl ?_)
        rw [Bool.and_eq_true]
        exact ⟨hb, hs⟩
      · simp only [List.cons_append, List.cons.injEq] at heq
        obtain ⟨rfl, hrest⟩ := heq
        refine Or.inr ?_
        exact (ih (some c)).mpr ⟨pre', t, sep, post, hrest, ht, hsep, by rwa [prevCharOf_cons] at hbnd⟩

theorem isInTestsRegexTest_iff (s : String) :
    isInTestsRegexTest s = true ↔
      ∃ pre t sep post, s.data = pre ++ t ++ sep :: post ∧
        (t = ['t', 'e', 's', 't'] ∨ t = ['t', 'e', 's', 't', 's']) ∧
        (sep = '/' ∨ sep = '\\') ∧
        prevOk pre.getLast? = true := by
  unfold isInTestsRegexTest
  rw [scanRegex_iff]
  simp only [prevCharOf_none]

theorem intercalate_singleton (sep x : String) : String.intercalate sep [x] = x := by
  simp [String.intercalate, String.intercalate.go]

/-! ## Claims -/

/-- C1, counterexample: a method with an `@override` JSDoc tag, one
parameter `x`, and no `@param` tags still gets a generated
`* @param {*} x` annotation line — the parameter annotations are not
omitted, contrary to the claim. -/
theorem c1_override_cex :
    genMethodOut "A_B" ⟨"f", some [⟨"x", none⟩], none, "public", none,
        some ⟨some [⟨"override"⟩]⟩⟩
      = some ["/**", "* @override", "* @param {*} x", "*/",
          "A_B.prototype.f = function(x){};"] ∧
    "* @param {*} x" ∈
      (genMethodOut "A_B" ⟨"f", some [⟨"x", none⟩], none, "public", none,
        some ⟨some [⟨"override"⟩]⟩⟩).getD [] := by
  exact ⟨rfl, by decide⟩

theorem genMethodOut_eq (mn : String) (m : Method) (h : m.privacy ≠ "private") :
    genMethodOut mn m = some (["/**"]
      ++ (if hasOverrideTag m then ["* @override"] else [])
      ++ (m.params.getD []).map genParameter
      ++ (match returnTypeOf m with
          | some rt => if rt = "" then [] else ["* @return " ++ "\x7b" ++ rt ++ "\x7d"]
          | none => [])
      ++ ["*/", mn ++ ".prototype." ++ m.name ++ " = function("
            ++ String.intercalate ", " ((m.params.getD []).map fun p => cleanVarArgs p.name)
            ++ "){};"]) := by
  unfold genMethodOut
  rw [if_neg h]
  cases hp : m.params <;> simp [hp, String.intercalate]

/-- C1, amended: for every non-private method whose JSDoc tags indicate
override, the generated block includes an `* @override` line, and the
generated `@param` annotations are still emitted for every declared
parameter (the override does not suppress them). -/
theorem c1_override_amended : ∀ (mixinName : String) (m : Method),
    m.privacy ≠ "private" → hasOverrideTag m = true →
    (genMethodOut mixinName m).isSome = true ∧
    "* @override" ∈ (genMethodOut mixinName m).getD [] ∧
    ∀ p ∈ m.params.getD [], genParameter p ∈ (genMethodOut mixinName m).getD [] := by
  intro mn m hpriv hov
  rw [genMethodOut_eq mn m hpriv]
  refine ⟨rfl, ?_, ?_⟩
  · simp [hov]
  · intro p hmem
    simp only [Option.getD_some]
    refine List.mem_append.mpr (Or.inl ?_)
    refine List.mem_append.mpr (Or.inl ?_)
    refine List.mem_append.mpr (Or.inr ?_)
    exact List.mem_map_of_mem genParameter hmem

/-- C1, witness for the amended theorem at a concrete method. -/
theorem c1_override_witness :
    "* @override" ∈ (genMethodOut "M"
      ⟨"g", some [⟨"a", some "string"⟩], none, "protected", none,
        some ⟨some [⟨"override"⟩]⟩⟩).getD [] ∧
    genParameter ⟨"a", some "string"⟩ ∈ (genMethodOut "M"
      ⟨"g", some [⟨"a", some "string"⟩], none, "protected", none,
        some ⟨some [⟨"override"⟩]⟩⟩).getD [] :=
  ⟨(c1_override_amended "M" _ (by decide) (by decide)).2.1,
   (c1_override_amended "M" _ (by decide) (by decide)).2.2 _ (by decide)⟩

/-- C2, counterexample: a variadic parameter `...items` with no declared
type gets annotation type `*`, not `...*` as the claim states. -/
theorem c2_variadic_cex :
    genParameter ⟨"...items", none⟩ = "* @param {*} items" ∧
    genParameter ⟨"...items", none⟩ ≠ "* @param " ++ "\x7b...*\x7d" ++ " items" := by
  exact ⟨rfl, by decide⟩

/-- C2, amended: a `...`-prefixed parameter name is stripped of the prefix
both in its `@param` annotation and in the emitted stub parameter list,
but its wildcard annotation type is plain `*` (same as non-variadic), not
`...*`. -/
theorem c2_variadic_amended :
    (∀ (rest : List Char) (t : Option String),
      cleanVarArgs (String.mk ('.' :: '.' :: '.' :: rest)) = String.mk rest ∧
      genParameter ⟨String.mk ('.' :: '.' :: '.' :: rest), t⟩
        = "* @param " ++ "\x7b" ++ typeOrStar t ++ "\x7d " ++ String.mk rest) ∧
    (∀ p : Param, p.type = none →
      genParameter p = "* @param " ++ "\x7b*\x7d " ++ cleanVarArgs p.name) ∧
    (∀ (mn fname : String) (rest : List Char) (t : Option String),
      genMethodOut mn ⟨fname, some [⟨String.mk ('.' :: '.' :: '.' :: rest), t⟩],
          none, "public", none, none⟩
        = some ["/**",
            "* @param " ++ "\x7b" ++ typeOrStar t ++ "\x7d " ++ String.mk rest,
            "*/",
            mn ++ ".prototype." ++ fname ++ " = function(" ++ String.mk rest ++ "){};"]) := by
  refine ⟨fun rest t => ⟨rfl, rfl⟩, fun p hp => ?_, fun mn fname rest t => ?_⟩
  · simp [genParameter, hp, typeOrStar]
  · rw [genMethodOut_eq _ _ (by show ("public" : String) ≠ "private"; decide)]
    simp [hasOverrideTag, returnTypeOf, genParameter, intercalate_singleton, cleanVarArgs]

/-- C2, witness for the amended theorem at concrete inputs. -/
theorem c2_variadic_witness :
    genParameter ⟨"plain", none⟩ = "* @param " ++ "\x7b*\x7d " ++ cleanVarArgs "plain" ∧
    genMethodOut "M" ⟨"h", some [⟨String.mk ('.' :: '.' :: '.' :: "xs".data), none⟩],
        none, "public", none, none⟩
      = some ["/**", "* @param " ++ "\x7b" ++ typeOrStar none ++ "\x7d " ++ String.mk "xs".data,
          "*/", "M" ++ ".prototype." ++ "h" ++ " = function(" ++ String.mk "xs".data ++ "){};"] :=
  ⟨c2_variadic_amended.2.1 _ rfl, c2_variadic_amended.2.2 "M" "h" "xs".data none⟩

/-- C3, counterexample: a mixin whose identifier has no dot gets combined
type name `undefined_M` (the absent namespace is interpolated as the
string `undefined`), not the bare name `M` as the claim states. -/
theorem c3_combined_name_cex :
    mixinNameOf "M" = "undefined_M" ∧ ("undefined_M" : String) ≠ "M" ∧
    genMixinDesc ⟨"M", none, [], []⟩
      = ["/**", "* @record", "*/", "function undefined_M(){}"] := by
  exact ⟨rfl, by decide, rfl⟩

/-- C3, amended: for a dotted identifier `N.M` the combined type name is
`N_M` in variant 1 (and the stdout variant emits it as `Polymer_M`, only
when `N` is `Polymer`); for an identifier with no dot, variant 1 uses
`undefined_M` and the stdout variant emits nothing at all. -/
theorem c3_combined_name_amended :
    (∀ a b : List Char, '.' ∉ b →
      mixinNameOf (String.mk (a ++ '.' :: b)) = String.mk a ++ "_" ++ String.mk b) ∧
    (∀ s : String, '.' ∉ s.data → mixinNameOf s = "undefined_" ++ s) ∧
    (∀ m : PolymerElementMixin, '.' ∉ m.name.data → V2.genMixinDesc m = none) ∧
    (∀ a b : List Char, '.' ∉ b → ∀ m : PolymerElementMixin,
      m.name = String.mk (a ++ '.' :: b) → String.mk a = "Polymer" →
      ∃ out, V2.genMixinDesc m = some out ∧
        ("function " ++ ("Polymer_" ++ String.mk b) ++ "(){}") ∈ out) := by
  refine ⟨fun a b hb => ?_, fun s h => ?_, fun m h => ?_, fun a b hb m hm hpoly => ?_⟩
  · unfold mixinNameOf
    rw [getNamespaceAndName_dotted hb]
    rfl
  · unfold mixinNameOf
    rw [getNamespaceAndName_nodot h]
    obtain ⟨ls⟩ := s
    rfl
  · unfold V2.genMixinDesc
    rw [v2_getNamespaceAndName_nodot h]
    simp
  · unfold V2.genMixinDesc
    rw [hm, v2_getNamespaceAndName_dotted hb, hpoly]
    rw [if_neg (by simp)]
    refine ⟨_, rfl, ?_⟩
    simp [tmpl]

/-- C3, witness for the amended theorem at concrete identifiers. -/
theorem c3_combined_name_witness :
    mixinNameOf (String.mk (['N'] ++ '.' :: ['M'])) = String.mk ['N'] ++ "_" ++ String.mk ['M'] ∧
    mixinNameOf "M" = "undefined_" ++ "M" ∧
    V2.genMixinDesc ⟨"M", none, [], []⟩ = none ∧
    ∃ out, V2.genMixinDesc ⟨"Polymer.Foo", none, [], []⟩ = some out ∧
      ("function " ++ ("Polymer_" ++ String.mk ['F', 'o', 'o']) ++ "(){}") ∈ out :=
  ⟨c3_combined_name_amended.1 ['N'] ['M'] (by decide),
   c3_combined_name_amended.2.1 "M" (by decide),
   c3_combined_name_amended.2.2.1 ⟨"M", none, [], []⟩ (by decide),
   c3_combined_name_amended.2.2.2 "Polymer".data ['F', 'o', 'o'] (by decide)
     ⟨"Polymer.Foo", none, [], []⟩ (by decide) (by decide)⟩

/-- C4, counterexample: the claimed characterisation (a `test`/`tests`
path segment bounded on both sides by separators or string boundaries) is
wrong in both directions: `a/test` has such a segment at the end of the
string but the filter regex does not match it (it demands a trailing
separator), while `my-test/x` has no such segment but the regex matches
(its left context is a word boundary, satisfied after `-`). -/
theorem c4_test_filter_cex :
    specIsTestSegPath "a/test" = true ∧
    isInTestsRegexTest "a/test" = false ∧
    isTest ⟨some ⟨"a/test"⟩, ["element-mixin"], ⟨"Polymer.A", none, [], []⟩⟩ = false ∧
    specIsTestSegPath "my-test/x" = false ∧
    isInTestsRegexTest "my-test/x" = true := by
  exact ⟨by decide, by decide, by decide, by decide, by decide⟩

/-- C4, amended: a feature with no source range is never filtered; the
filter tests the regex on the source file path; and the regex matches
exactly the paths containing `test` or `tests` immediately followed by a
path separator (`/` or `\`) and preceded by the start of the string or a
non-word character (a word boundary or separator) — so a trailing
`test`/`tests` segment at the end of the string does not match, while a
non-segment boundary such as `-` or `.` before `test` does. -/
theorem c4_test_filter_amended :
    (∀ f : Feature, f.sourceRange = none → isTest f = false) ∧
    (∀ f : Feature, ∀ sr, f.sourceRange = some sr → isTest f = isInTestsRegexTest sr.file) ∧
    (∀ s : String, isInTestsRegexTest s = true ↔
      ∃ pre t sep post, s.data = pre ++ t ++ sep :: post ∧
        (t = ['t', 'e', 's', 't'] ∨ t = ['t', 'e', 's', 't', 's']) ∧
        (sep = '/' ∨ sep = '\\') ∧
        prevOk pre.getLast? = true) := by
  refine ⟨fun f h => ?_, fun f sr h => ?_, isInTestsRegexTest_iff⟩
  · unfold isTest
    rw [h]
  · unfold isTest
    rw [h]

/-- C4, witness for the amended theorem at concrete inputs. -/
theorem c4_test_filter_witness :
    isTest ⟨none, ["element-mixin"], ⟨"Polymer.A", none, [], []⟩⟩ = false ∧
    isInTestsRegexTest "x/test/y" = true :=
  ⟨c4_test_filter_amended.1 _ rfl,
   (c4_test_filter_amended.2.2 "x/test/y").mpr
     ⟨['x', '/'], ['t', 'e', 's', 't'], '/', ['y'], by decide, Or.inl rfl, Or.inl rfl, by decide⟩⟩

/-- C5, counterexample: a public, non-inherited property with an absent
type is neither omitted nor given a wildcard annotation — the generated
line is `@type {undefined}`, interpolating JS `undefined` literally. -/
theorem c5_missing_metadata_cex :
    genProperty "M" ⟨"foo", none, "public", none⟩
      = some "/** @type {undefined} */\nM.prototype.foo;\n" ∧
    genProperty "M" ⟨"foo", none, "public", none⟩
      ≠ some "/** @type {*} */\nM.prototype.foo;\n" ∧
    genProperty "M" ⟨"foo", none, "public", none⟩ ≠ none := by
  exact ⟨rfl, by decide, by decide⟩

/-- C5, amended: the emitters never fail on missing metadata, but the
degradation differs by case — an absent parameter type yields the wildcard
`{*}`; an absent return type omits the `@return` line; an absent parameter
list yields no `@param` lines and an empty stub parameter list; an absent
property type, however, is interpolated as the literal `{undefined}`, not
a wildcard. -/
theorem c5_missing_metadata_amended :
    (∀ (mn : String) (p : Property), p.type = none → p.privacy ≠ "private" →
      p.inheritedFrom = none →
      genProperty mn p = some ("/** @type " ++ "\x7bundefined\x7d */\n"
        ++ mn ++ ".prototype." ++ p.name ++ ";\n")) ∧
    (∀ p : Param, p.type = none →
      genParameter p = "* @param " ++ "\x7b*\x7d " ++ cleanVarArgs p.name) ∧
    (∀ (mn : String) (m : Method), m.privacy ≠ "private" → returnTypeOf m = none →
      genMethodOut mn m = some (["/**"]
        ++ (if hasOverrideTag m then ["* @override"] else [])
        ++ (m.params.getD []).map genParameter
        ++ ["*/", mn ++ ".prototype." ++ m.name ++ " = function("
              ++ String.intercalate ", " ((m.params.getD []).map fun p => cleanVarArgs p.name)
              ++ "){};"])) ∧
    (∀ (mn : String) (m : Method), m.privacy ≠ "private" → m.params = none →
      returnTypeOf m = none →
      genMethodOut mn m = some (["/**"]
        ++ (if hasOverrideTag m then ["* @override"] else [])
        ++ ["*/", mn ++ ".prototype." ++ m.name ++ " = function(){};"])) := by
  refine ⟨fun mn p ht hpriv hinh => ?_, fun p hp => ?_, fun mn m hpriv hret => ?_,
    fun mn m hpriv hp hret => ?_⟩
  · unfold genProperty
    rw [if_neg (by simp [hpriv, hinh])]
    rw [ht]
    rfl
  · simp [genParameter, hp, typeOrStar]
  · rw [genMethodOut_eq mn m hpriv, hret]
    simp
  · rw [genMethodOut_eq mn m hpriv, hret, hp]
    simp [String.intercalate, String.append_assoc]

/-- C5, witness for the amended theorem at concrete inputs. -/
theorem c5_missing_metadata_witness :
    genProperty "M" ⟨"bar", none, "protected", none⟩
      = some ("/** @type " ++ "\x7bundefined\x7d */\n" ++ "M" ++ ".prototype." ++ "bar" ++ ";\n") ∧
    genParameter ⟨"q", none⟩ = "* @param " ++ "\x7b*\x7d " ++ cleanVarArgs "q" ∧
    genMethodOut "M" ⟨"k", none, none, "public", none, none⟩
      = some (["/**"] ++ (if hasOverrideTag ⟨"k", none, none, "public", none, none⟩
            then ["* @override"] else [])
          ++ ["*/", "M" ++ ".prototype." ++ "k" ++ " = function(){};"]) :=
  ⟨c5_missing_metadata_amended.1 "M" ⟨"bar", none, "protected", none⟩ rfl (by decide) rfl,
   c5_missing_metadata_amended.2.1 ⟨"q", none⟩ rfl,
   c5_missing_metadata_amended.2.2.2 "M" ⟨"k", none, none, "public", none, none⟩
     (by decide) rfl rfl⟩

/-- C6, counterexample: the stdout variant's splitter does not return
everything after the last dot as `name` — it prepends the literal
`Polymer_`, so `A.B` splits to name `Polymer_B`, not `B`. -/
theorem c6_splitter_cex :
    (V2.getNamespaceAndName "A.B").name = some "Polymer_B" ∧
    some ("Polymer_B" : String) ≠ some ("B" : String) := by
  exact ⟨rfl, by decide⟩

/-- C6, amended: variant 1 splits at the last dot exactly as claimed
(`name` is the part after, `namespace` the part before; with no dot,
`namespace` is absent and `name` is the whole string); the stdout variant
behaves the same except that for a dotted identifier its `name` is
`Polymer_` prepended to the part after the last dot. -/
theorem c6_splitter_amended :
    (∀ a b : List Char, '.' ∉ b →
      getNamespaceAndName (String.mk (a ++ '.' :: b))
          = ⟨some (String.mk b), some (String.mk a)⟩ ∧
      V2.getNamespaceAndName (String.mk (a ++ '.' :: b))
          = ⟨some ("Polymer_" ++ String.mk b), some (String.mk a)⟩) ∧
    (∀ s : String, '.' ∉ s.data →
      getNamespaceAndName s = ⟨some s, none⟩ ∧
      V2.getNamespaceAndName s = ⟨some s, none⟩) :=
  ⟨fun _ _ hb => ⟨getNamespaceAndName_dotted hb, v2_getNamespaceAndName_dotted hb⟩,
   fun _ h => ⟨getNamespaceAndName_nodot h, v2_getNamespaceAndName_nodot h⟩⟩

/-- C6, witness for the amended theorem at concrete identifiers. -/
theorem c6_splitter_witness :
    getNamespaceAndName (String.mk (['N', '.', 'A'] ++ '.' :: ['B']))
        = ⟨some (String.mk ['B']), some (String.mk ['N', '.', 'A'])⟩ ∧
    V2.getNamespaceAndName (String.mk (['N', '.', 'A'] ++ '.' :: ['B']))
        = ⟨some ("Polymer_" ++ String.mk ['B']), some (String.mk ['N', '.', 'A'])⟩ ∧
    getNamespaceAndName "Plain" = ⟨some "Plain", none⟩ :=
  ⟨(c6_splitter_amended.1 ['N', '.', 'A'] ['B'] (by decide)).1,
   (c6_splitter_amended.1 ['N', '.', 'A'] ['B'] (by decide)).2,
   (c6_splitter_amended.2 "Plain" (by decide)).1⟩

/-- C7: in the stdout variant, a mixin whose identifier's namespace is not
exactly `Polymer` (including one with no namespace at all) produces no
block: `genMixinDeclaration` contributes nothing and the package output is
just the header. -/
theorem c7_non_polymer_skipped : ∀ m : PolymerElementMixin,
    (V2.getNamespaceAndName m.name).namespaceName ≠ some "Polymer" →
    V2.genMixinDesc m = none ∧ V2.genMixinDeclaration m = none ∧
    V2.generatePackage [⟨none, ["element-mixin"], m⟩] = V2.header := by
  intro m h
  have h1 : V2.genMixinDesc m = none := by
    unfold V2.genMixinDesc
    rw [if_pos h]
  have h2 : V2.genMixinDeclaration m = none := by
    unfold V2.genMixinDeclaration
    rw [h1]
    rfl
  refine ⟨h1, h2, ?_⟩
  unfold V2.generatePackage
  simp [isTest, h2, intercalate_singleton]

/-- C7, witness: a mixin in namespace `Foo` and a namespace-less mixin are
both skipped entirely. -/
theorem c7_non_polymer_skipped_witness :
    V2.genMixinDesc ⟨"Foo.Bar", none, [], []⟩ = none ∧
    V2.generatePackage [⟨none, ["element-mixin"], ⟨"Bare", none, [], []⟩⟩] = V2.header :=
  ⟨(c7_non_polymer_skipped ⟨"Foo.Bar", none, [], []⟩ (by decide)).1,
   (c7_non_polymer_skipped ⟨"Bare", none, [], []⟩ (by decide)).2.2⟩

/-- C8: private properties and methods are never emitted (both variants);
inherited properties are never emitted (both variants); inherited methods
are excluded in the stdout variant, and only in that variant — variant 1
emits a non-private method regardless of `inheritedFrom`. -/
theorem c8_private_inherited_excluded :
    (∀ (mn : String) (p : Property), p.privacy = "private" → genProperty mn p = none) ∧
    (∀ (mn : String) (p : Property), p.inheritedFrom.isSome = true → genProperty mn p = none) ∧
    (∀ (mn : String) (m : Method), m.privacy = "private" →
      genMethodOut mn m = none ∧ V2.genMethodOut mn m = none) ∧
    (∀ (mn : String) (m : Method), m.inheritedFrom.isSome = true →
      V2.genMethodOut mn m = none) ∧
    (∀ (mn : String) (m : Method), m.privacy ≠ "private" →
      (genMethodOut mn m).isSome = true) := by
  refine ⟨fun mn p h => ?_, fun mn p h => ?_, fun mn m h => ⟨?_, ?_⟩,
    fun mn m h => ?_, fun mn m h => ?_⟩
  · unfold genProperty
    rw [if_pos (Or.inl h)]
  · unfold genProperty
    rw [if_pos (Or.inr h)]
  · unfold genMethodOut
    rw [if_pos h]
  · unfold V2.genMethodOut
    rw [if_pos (Or.inl h)]
  · unfold V2.genMethodOut
    rw [if_pos (Or.inr h)]
  · rw [genMethodOut_eq mn m h]
    rfl

/-- C8, witness at concrete members, including a variant-1 inherited
method that is still emitted. -/
theorem c8_private_inherited_witness :
    genProperty "M" ⟨"p", some "string", "private", none⟩ = none ∧
    genProperty "M" ⟨"p", some "string", "public", some "Base"⟩ = none ∧
    genMethodOut "M" ⟨"f", none, none, "private", none, none⟩ = none ∧
    V2.genMethodOut "M" ⟨"f", none, none, "public", some "Base", none⟩ = none ∧
    (genMethodOut "M" ⟨"f", none, none, "public", some "Base", none⟩).isSome = true :=
  ⟨c8_private_inherited_excluded.1 "M" _ rfl,
   c8_private_inherited_excluded.2.1 "M" _ rfl,
   (c8_private_inherited_excluded.2.2.1 "M" ⟨"f", none, none, "private", none, none⟩ rfl).1,
   c8_private_inherited_excluded.2.2.2.1 "M" _ rfl,
   c8_private_inherited_excluded.2.2.2.2 "M" _ (by decide)⟩

set_option maxRecDepth 4000 in
/-- C9, counterexample: consecutive mixin blocks are joined with a single
newline, not a blank line — two empty mixins produce `...(){}` immediately
followed by `\n/**`, and the output differs from the blank-line join of
the same pieces. -/
theorem c9_newline_join_cex :
    generatePackage
        [⟨none, ["element-mixin"], ⟨"A.B", none, [], []⟩⟩,
         ⟨none, ["element-mixin"], ⟨"C.D", none, [], []⟩⟩]
      = header ++ "\n" ++ "/**\n* @record\n*/\nfunction A_B(){}"
          ++ "\n" ++ "/**\n* @record\n*/\nfunction C_D(){}" ∧
    generatePackage
        [⟨none, ["element-mixin"], ⟨"A.B", none, [], []⟩⟩,
         ⟨none, ["element-mixin"], ⟨"C.D", none, [], []⟩⟩]
      ≠ header ++ "\n\n" ++ "/**\n* @record\n*/\nfunction A_B(){}"
          ++ "\n\n" ++ "/**\n* @record\n*/\nfunction C_D(){}" := by
  exact ⟨rfl, by decide⟩

/-- C9, amended: the output is the fixed hand-written header followed by
one block per emitted mixin, all joined with single newlines; variant 1
returns this string, and the stdout variant writes the same shape of
string (modelled as its value) with its own header and its
namespace-filtered blocks. -/
theorem c9_output_structure : ∀ ms : List PolymerElementMixin,
    generatePackage (ms.map fun m => ⟨none, ["element-mixin"], m⟩)
      = String.intercalate "\n" (header :: ms.map genMixinDeclaration) ∧
    V2.generatePackage (ms.map fun m => ⟨none, ["element-mixin"], m⟩)
      = String.intercalate "\n" (V2.header :: ms.filterMap V2.genMixinDeclaration) := by
  intro ms
  constructor
  · unfold generatePackage
    congr 1
    congr 1
    rw [List.filterMap_map]
    show List.filterMap (some ∘ genMixinDeclaration) ms = List.map genMixinDeclaration ms
    rw [List.filterMap_eq_map]
  · unfold V2.generatePackage
    congr 1
    congr 1
    rw [List.filterMap_map]
    rfl

/-- C10: in the stdout variant, every parent-mixin reference with a dotted
identifier `A.B` is emitted as `* @implements {Polymer_B}` — the
`Polymer_` prefix comes from the splitter unconditionally, whatever the
parent's actual namespace `A` is. -/
theorem c10_implements_polymer_prefixed :
    ∀ (m : PolymerElementMixin) (a b : List Char), '.' ∉ b →
    (V2.getNamespaceAndName m.name).namespaceName = some "Polymer" →
    ∀ pr ∈ m.mixins.getD [], pr.identifier = String.mk (a ++ '.' :: b) →
    ∃ out, V2.genMixinDesc m = some out ∧
      ("* @implements " ++ "\x7b" ++ ("Polymer_" ++ String.mk b) ++ "\x7d") ∈ out := by
  intro m a b hb hns pr hpr hid
  cases hmx : m.mixins with
  | none =>
    rw [hmx] at hpr
    simp at hpr
  | some ms =>
    rw [hmx] at hpr
    simp only [Option.getD_some] at hpr
    have hlen : 0 < ms.length := List.length_pos.mpr (by rintro rfl; simp at hpr)
    unfold V2.genMixinDesc
    rw [if_neg (by simp [hns])]
    refine ⟨_, rfl, ?_⟩
    have hline : ("* @implements " ++ "\x7b" ++ ("Polymer_" ++ String.mk b) ++ "\x7d")
        ∈ ms.map (fun mr =>
            "* @implements " ++ "\x7b" ++ tmpl (V2.getNamespaceAndName mr.identifier).name ++ "\x7d") := by
      refine List.mem_map.mpr ⟨pr, hpr, ?_⟩
      show "* @implements " ++ "\x7b"
          ++ tmpl (V2.getNamespaceAndName pr.identifier).name ++ "\x7d" = _
      rw [hid, v2_getNamespaceAndName_dotted hb]
      rfl
    rw [hmx]
    simp only [if_pos hlen]
    refine List.mem_cons_of_mem _ (List.mem_cons_of_mem _ ?_)
    refine List.mem_append.mpr (Or.inl ?_)
    refine List.mem_append.mpr (Or.inl ?_)
    refine List.mem_append.mpr (Or.inl ?_)
    exact hline

/-- C10, witness: a `Polymer.Foo` mixin with parent `Bar.Baz` gets the
line `* @implements {Polymer_Baz}`. -/
theorem c10_implements_witness :
    ("* @implements " ++ "\x7b" ++ ("Polymer_" ++ String.mk ['B', 'a', 'z']) ++ "\x7d")
      ∈ (V2.genMixinDesc ⟨"Polymer.Foo", some [⟨"Bar.Baz"⟩], [], []⟩).getD [] := by
  obtain ⟨out, h1, h2⟩ := c10_implements_polymer_prefixed
    ⟨"Polymer.Foo", some [⟨"Bar.Baz"⟩], [], []⟩ ['B', 'a', 'r'] ['B', 'a', 'z']
    (by decide) (by decide) ⟨"Bar.Baz"⟩ (by decide) (by decide)
  rw [h1]
  exact h2
